import Mathlib

/-!
Verification of the clsp LSP client (main.go): a shallow embedding of the
framed JSON-RPC transport and the protocol-client logic, with theorems
checking the natural-language specification against the code.

Bytes are modelled as `Nat` (values < 256 where relevant); byte streams as
`List Nat`.  Machine `int` values are modelled as `Int` (Go `strconv.Atoi`
can return negative numbers, which matters for the header-parsing claims).
-/

namespace Clsp

/-- Bytes of an ASCII Lean string literal (used only for brace-free ASCII
text such as header names and method names). -/
def strBytes (s : String) : List Nat := s.data.map Char.toNat

/-- Go `unicode.IsSpace` restricted to ASCII, as used by
`strings.TrimSpace` on header lines (header lines are ASCII). -/
def isSpaceByte (b : Nat) : Bool :=
  b == 32 || b == 9 || b == 10 || b == 11 || b == 12 || b == 13

/-- ASCII decimal digit test (`'0' ≤ b ≤ '9'`). -/
def isDigitByte (b : Nat) : Bool := 48 ≤ b && b ≤ 57

/-- `strings.TrimSpace`: drop leading and trailing whitespace. -/
def trimSpace (s : List Nat) : List Nat :=
  ((s.dropWhile isSpaceByte).reverse.dropWhile isSpaceByte).reverse

/-- Does `s` start with the byte sequence `p` (Go `strings.CutPrefix`
success condition)? -/
def listStartsWith : List Nat → List Nat → Bool
  | [], _ => true
  | _ :: _, [] => false
  | p :: ps, b :: bs => p == b && listStartsWith ps bs

/-- `bufio.Reader.ReadString('\n')`: the shortest stream slice up to and
including the first newline byte (10), together with the unread remainder.
`none` models the stream ending (EOF) before a newline is seen, in which
case the Go code propagates the read error. -/
def readLine : List Nat → Option (List Nat × List Nat)
  | [] => none
  | b :: rest =>
    if b == 10 then some ([10], rest)
    else
      match readLine rest with
      | some (l, r) => some (b :: l, r)
      | none => none

/-- Accumulating decimal parse used by `strconv.Atoi`: fails on the first
non-digit byte. -/
def parseDigitsAcc (acc : Nat) : List Nat → Option Nat
  | [] => some acc
  | b :: rest =>
    if isDigitByte b then parseDigitsAcc (acc * 10 + (b - 48)) rest
    else none

/-- `strconv.Atoi`: optional sign followed by one or more digits; every
other input is an error (`none`).  Overflow is not modelled (the header
values of interest are small). -/
def atoi (s : List Nat) : Option Int :=
  match s with
  | [] => none
  | b :: rest =>
    if b = 43 then
      if rest = [] then none else (parseDigitsAcc 0 rest).map Int.ofNat
    else if b = 45 then
      if rest = [] then none else (parseDigitsAcc 0 rest).map (fun n => -(n : Int))
    else (parseDigitsAcc 0 (b :: rest)).map Int.ofNat

/-- The header name bytes `"Content-Length:"`. -/
def contentLengthName : List Nat := strBytes "Content-Length:"

/-- Errors surfaced by one `ReadResponse` message-read attempt
(main.go lines 144-179).  The constructors correspond one-to-one to the
`return nil, err` sites of the Go code. -/
inductive ReadErr where
  /-- "failed to read header line": the stream ended inside the header
  block. -/
  | headerRead : ReadErr
  /-- "invalid Content-Length header": `strconv.Atoi` failed. -/
  | invalidContentLength : ReadErr
  /-- "no Content-Length header found" (main.go line 167). -/
  | noContentLength : ReadErr
  /-- "failed to read response content": the stream ended inside the
  body. -/
  | bodyRead : ReadErr
  /-- "failed to unmarshal response": the body is not valid JSON. -/
  | unmarshal : ReadErr
deriving DecidableEq, Repr

/-- Result of reading one framed message: either the raw body bytes plus
the unread remainder of the stream, an error return, or a Go runtime
panic (which is not an error return). -/
inductive ReadResult where
  | ok (body rest : List Nat) : ReadResult
  | err (e : ReadErr) : ReadResult
  /-- Models the runtime panic of `make([]byte, contentLength)` when
  `contentLength` is negative (main.go line 170). -/
  | panicMakeSlice : ReadResult
deriving DecidableEq, Repr

/-- The header loop of `ReadResponse` (main.go lines 145-164): read lines
until a blank line; on each line carrying the `Content-Length:` name,
parse its value with `Atoi` (the last occurrence wins); other lines are
ignored.  `cl` threads the Go local `contentLength` (initially 0).
`fuel` bounds the recursion; each iteration consumes at least one stream
byte, so `s.length + 1` fuel always suffices (see `readMessage`). -/
def readHeaderBlock (fuel : Nat) (cl : Int) (s : List Nat) :
    Except ReadErr (Int × List Nat) :=
  match fuel with
  | 0 => .error .headerRead
  | fuel + 1 =>
    match readLine s with
    | none => .error .headerRead
    | some (line, rest) =>
      let t := trimSpace line
      if t = [] then .ok (cl, rest)
      else if listStartsWith contentLengthName t then
        match atoi (trimSpace (t.drop contentLengthName.length)) with
        | none => .error .invalidContentLength
        | some n => readHeaderBlock fuel n rest
      else readHeaderBlock fuel cl rest

/-- One message-read attempt of `ReadResponse` up to and including the
body read (main.go lines 144-174), returning the raw body bytes.
After the header block: `contentLength == 0` is the
"no Content-Length header found" error (line 166-168); a negative
`contentLength` reaches `make([]byte, contentLength)` and panics;
otherwise `io.ReadFull` reads exactly that many bytes, failing if the
stream ends first. -/
def readMessage (s : List Nat) : ReadResult :=
  match readHeaderBlock (s.length + 1) 0 s with
  | .error e => .err e
  | .ok (cl, rest) =>
    if cl == 0 then .err .noContentLength
    else if cl < 0 then .panicMakeSlice
    else if rest.length < cl.toNat then .err .bodyRead
    else .ok (rest.take cl.toNat) (rest.drop cl.toNat)

/-- Carriage-return + line-feed. -/
def crlf : List Nat := [13, 10]

/-- Decimal digits of `n` (most significant first) as ASCII bytes, the
format of Go `fmt.Sprintf("%d", n)` for non-negative values.  `fuel`
bounds the recursion; `n + 1` always suffices. -/
def natToDecGo : Nat → Nat → List Nat
  | 0, _ => []
  | f + 1, n => if n < 10 then [48 + n] else natToDecGo f (n / 10) ++ [48 + n % 10]

/-- Decimal representation of `n` in ASCII bytes. -/
def natToDec (n : Nat) : List Nat := natToDecGo (n + 1) n

/-- The frame written by `SendRequest`/`SendNotification` for a message
body (main.go lines 102-105): `Content-Length: <len>\r\n\r\n` followed by
the raw body bytes, where `<len>` is the byte length of the body. -/
def frameBytes (content : List Nat) : List Nat :=
  strBytes "Content-Length: " ++ natToDec content.length ++ crlf ++ crlf ++ content

theorem natToDecGo_digits (f n : Nat) :
    ∀ b ∈ natToDecGo f n, isDigitByte b = true := by
  induction f generalizing n with
  | zero => intro b hb; simp [natToDecGo] at hb
  | succ f ih =>
    intro b hb
    rw [natToDecGo] at hb
    by_cases h : n < 10
    · simp [h] at hb
      simp [hb, isDigitByte]
      omega
    · simp [h, List.mem_append] at hb
      rcases hb with hb | hb
      · exact ih _ b hb
      · have : n % 10 < 10 := Nat.mod_lt _ (by omega)
        simp [hb, isDigitByte]
        omega

theorem natToDec_digits (n : Nat) : ∀ b ∈ natToDec n, isDigitByte b = true :=
  natToDecGo_digits _ n

theorem natToDec_ne_nil (n : Nat) : natToDec n ≠ [] := by
  rw [natToDec, natToDecGo]
  by_cases h : n < 10 <;> simp [h]

theorem parseDigitsAcc_natToDecGo (f : Nat) :
    ∀ n acc ys, n < f →
      parseDigitsAcc acc (natToDecGo f n ++ ys)
        = parseDigitsAcc (acc * 10 ^ (natToDecGo f n).length + n) ys := by
  induction f with
  | zero => intro n acc ys h; omega
  | succ f ih =>
    intro n acc ys h
    rw [natToDecGo]
    by_cases h10 : n < 10
    · have hd : isDigitByte (48 + n) = true := by simp [isDigitByte]; omega
      simp [h10, parseDigitsAcc, hd]
    · have hdiv : n / 10 < f := by
        have := Nat.div_lt_self (by omega : 0 < n) (by omega : 1 < 10)
        omega
      have hd : isDigitByte (48 + n % 10) = true := by
        have : n % 10 < 10 := Nat.mod_lt _ (by omega)
        simp [isDigitByte]; omega
      simp only [h10, if_false, List.append_assoc, List.cons_append,
        List.nil_append]
      rw [ih (n / 10) acc ((48 + n % 10) :: ys) hdiv]
      simp [parseDigitsAcc, hd, List.length_append]
      congr 1
      have hmod : n % 10 < 10 := Nat.mod_lt _ (by omega)
      have : acc * 10 ^ ((natToDecGo f (n / 10)).length + 1)
          = acc * 10 ^ (natToDecGo f (n / 10)).length * 10 := by ring
      rw [this]
      have := Nat.div_add_mod n 10
      omega

/-- `strconv.Atoi` written with explicit sign tests (equal to `atoi` by
definition unfolding); used to reason about the non-sign branch. -/
theorem atoi_no_sign (b : Nat) (bs : List Nat) (h43 : b ≠ 43) (h45 : b ≠ 45) :
    atoi (b :: bs) = (parseDigitsAcc 0 (b :: bs)).map Int.ofNat := by
  simp [atoi, h43, h45]

theorem atoi_natToDec (n : Nat) : atoi (natToDec n) = some (n : Int) := by
  have hne := natToDec_ne_nil n
  obtain ⟨b, bs, hbs⟩ : ∃ b bs, natToDec n = b :: bs := by
    cases h : natToDec n with
    | nil => exact absurd h hne
    | cons b bs => exact ⟨b, bs, rfl⟩
  have hb : isDigitByte b = true := natToDec_digits n b (by rw [hbs]; simp)
  have hb' : 48 ≤ b ∧ b ≤ 57 := by simpa [isDigitByte] using hb
  have h2 : parseDigitsAcc 0 (natToDec n) = some n := by
    have := parseDigitsAcc_natToDecGo (n + 1) n 0 [] (by omega)
    simpa [natToDec, parseDigitsAcc] using this
  rw [hbs, atoi_no_sign b bs (by omega) (by omega), ← hbs, h2]
  rfl

theorem readLine_append (l rest : List Nat) (h : 10 ∉ l) :
    readLine (l ++ 10 :: rest) = some (l ++ [10], rest) := by
  induction l with
  | nil => simp [readLine]
  | cons b bs ih =>
    have hb : b ≠ 10 := by intro hb; exact h (by simp [hb])
    have hbs : 10 ∉ bs := by intro hm; exact h (by simp [hm])
    simp [readLine, hb, ih hbs]

theorem mem_of_getLast?_eq {l : List Nat} {b : Nat} (h : l.getLast? = some b) :
    b ∈ l := by
  obtain ⟨hne, hb⟩ := List.mem_getLast?_eq_getLast (x := b) (l := l)
    (by simp [Option.mem_def, h])
  rw [hb]
  exact List.getLast_mem hne

theorem dropWhile_eq_self_of_head (p : Nat → Bool) (l : List Nat)
    (h : ∀ b, l.head? = some b → p b = false) : l.dropWhile p = l := by
  cases l with
  | nil => rfl
  | cons b bs => simp [List.dropWhile, h b rfl]

theorem trimSpace_eq_self (l : List Nat)
    (hhead : ∀ b, l.head? = some b → isSpaceByte b = false)
    (hlast : ∀ b, l.getLast? = some b → isSpaceByte b = false) :
    trimSpace l = l := by
  rw [trimSpace, dropWhile_eq_self_of_head _ _ hhead,
    dropWhile_eq_self_of_head _ _ (by simpa using hlast), List.reverse_reverse]

theorem isDigitByte_not_space (b : Nat) (h : isDigitByte b = true) :
    isSpaceByte b = false := by
  simp [isDigitByte] at h
  simp [isSpaceByte]
  omega

/-- Trimming a header line: trailing `\r\n` is stripped, a non-space first
byte and non-space last byte keep the rest intact. -/
theorem trimSpace_append_crlf (l : List Nat)
    (hhead : ∀ b, l.head? = some b → isSpaceByte b = false)
    (hlast : ∀ b, l.getLast? = some b → isSpaceByte b = false) :
    trimSpace (l ++ [13, 10]) = l := by
  cases l with
  | nil => decide
  | cons a l' =>
    have hhead' : isSpaceByte a = false := hhead a rfl
    have h1 : List.dropWhile isSpaceByte ((a :: l') ++ [13, 10])
        = (a :: l') ++ [13, 10] := by
      simp [List.dropWhile_cons, hhead']
    have h2 : ((a :: l') ++ [13, 10]).reverse = 10 :: 13 :: (a :: l').reverse := by
      simp
    have h3 : List.dropWhile isSpaceByte (10 :: 13 :: (a :: l').reverse)
        = List.dropWhile isSpaceByte (a :: l').reverse := by
      simp [List.dropWhile_cons, isSpaceByte]
    have h4 : List.dropWhile isSpaceByte (a :: l').reverse = (a :: l').reverse :=
      dropWhile_eq_self_of_head _ _ (fun b hb => by
        rw [List.head?_reverse] at hb
        exact hlast b hb)
    rw [trimSpace, h1, h2, h3, h4, List.reverse_reverse]

/-- Trimming the header value `" <digits>"` (the space after the colon in
`Content-Length: N`) yields the digit string. -/
theorem trimSpace_space_digits (ds : List Nat)
    (hds : ∀ b ∈ ds, isDigitByte b = true) :
    trimSpace (32 :: ds) = ds := by
  have h1 : List.dropWhile isSpaceByte (32 :: ds) = List.dropWhile isSpaceByte ds := by
    simp [List.dropWhile_cons, isSpaceByte]
  have h2 : List.dropWhile isSpaceByte ds = ds :=
    dropWhile_eq_self_of_head _ _ (fun b hb => by
      have hm : b ∈ ds := by
        cases ds with
        | nil => simp at hb
        | cons c cs => simp at hb; simp [hb]
      exact isDigitByte_not_space b (hds b hm))
  have h3 : List.dropWhile isSpaceByte ds.reverse = ds.reverse :=
    dropWhile_eq_self_of_head _ _ (fun b hb => by
      rw [List.head?_reverse] at hb
      exact isDigitByte_not_space b (hds b (mem_of_getLast?_eq hb)))
  rw [trimSpace, h1, h2, h3, List.reverse_reverse]

theorem listStartsWith_append (p q : List Nat) :
    listStartsWith p (p ++ q) = true := by
  induction p with
  | nil => rfl
  | cons b bs ih => simp [listStartsWith, ih]

/-- A blank line (bare `\r\n`) terminates the header block, yielding the
current `contentLength` value. -/
theorem rhb_blank (f : Nat) (cl : Int) (rest : List Nat) :
    readHeaderBlock (f + 1) cl (13 :: 10 :: rest) = .ok (cl, rest) := by
  have h1 : readLine (13 :: 10 :: rest) = some ([13, 10], rest) := by
    simp [readLine]
  rw [readHeaderBlock, h1]
  have ht : trimSpace [13, 10] = [] := by decide
  simp [ht]

/-- Processing one `Content-Length: <n>` header line: the loop records the
parsed value and continues with the remaining stream. -/
theorem rhb_clLine (f : Nat) (cl : Int) (n : Nat) (tail : List Nat) :
    readHeaderBlock (f + 1) cl
        (strBytes "Content-Length: " ++ natToDec n ++ crlf ++ tail)
      = readHeaderBlock f (n : Int) tail := by
  have hds := natToDec_digits n
  have hne := natToDec_ne_nil n
  have h10 : 10 ∉ strBytes "Content-Length: " ++ natToDec n ++ [13] := by
    intro hm
    rcases List.mem_append.mp hm with hm1 | hm2
    · rcases List.mem_append.mp hm1 with hma | hmb
      · revert hma; decide
      · have := hds 10 hmb; revert this; decide
    · simp at hm2
  have hsplit : strBytes "Content-Length: " ++ natToDec n ++ crlf ++ tail
      = (strBytes "Content-Length: " ++ natToDec n ++ [13]) ++ 10 :: tail := by
    simp [crlf]
  have h1 : readLine (strBytes "Content-Length: " ++ natToDec n ++ crlf ++ tail)
      = some ((strBytes "Content-Length: " ++ natToDec n ++ [13]) ++ [10], tail) := by
    rw [hsplit]
    exact readLine_append _ _ h10
  have hline : (strBytes "Content-Length: " ++ natToDec n ++ [13]) ++ [10]
      = (strBytes "Content-Length: " ++ natToDec n) ++ [13, 10] := by simp
  have htrim : trimSpace ((strBytes "Content-Length: " ++ natToDec n) ++ [13, 10])
      = strBytes "Content-Length: " ++ natToDec n := by
    apply trimSpace_append_crlf
    · intro b hb
      simp [strBytes] at hb
      rw [show b = 67 from by omega]
      decide
    · intro b hb
      rw [List.getLast?_append_of_ne_nil _ hne] at hb
      exact isDigitByte_not_space b (hds b (mem_of_getLast?_eq hb))
  have hsw : strBytes "Content-Length: " ++ natToDec n
      = contentLengthName ++ (32 :: natToDec n) := by
    have : strBytes "Content-Length: " = contentLengthName ++ [32] := by decide
    rw [this]
    simp
  rw [readHeaderBlock, h1]
  simp only [hline, htrim]
  rw [hsw]
  have hnn : contentLengthName ++ (32 :: natToDec n) ≠ [] := by simp
  simp only [hnn, if_false, listStartsWith_append, if_true, List.drop_left]
  rw [trimSpace_space_digits _ hds, atoi_natToDec]

/-- Processing a header line other than `Content-Length` (here the
concrete `Content-Type` line of the spec's test list): the loop ignores it
and continues. -/
theorem rhb_ctypeLine (f : Nat) (cl : Int) (tail : List Nat) :
    readHeaderBlock (f + 1) cl
        (strBytes "Content-Type: application/json" ++ crlf ++ tail)
      = readHeaderBlock f cl tail := by
  have h10 : 10 ∉ strBytes "Content-Type: application/json" ++ [13] := by decide
  have hsplit : strBytes "Content-Type: application/json" ++ crlf ++ tail
      = (strBytes "Content-Type: application/json" ++ [13]) ++ 10 :: tail := by
    simp [crlf]
  have h1 : readLine (strBytes "Content-Type: application/json" ++ crlf ++ tail)
      = some ((strBytes "Content-Type: application/json" ++ [13]) ++ [10], tail) := by
    rw [hsplit]
    exact readLine_append _ _ h10
  have htrim : trimSpace ((strBytes "Content-Type: application/json" ++ [13]) ++ [10])
      = strBytes "Content-Type: application/json" := by decide
  rw [readHeaderBlock, h1]
  simp only [htrim]
  have hne : strBytes "Content-Type: application/json" ≠ [] := by decide
  have hsw : listStartsWith contentLengthName
      (strBytes "Content-Type: application/json") = false := by decide
  simp only [hne, if_false, hsw]
  simp

/-- The writer/reader frame round trip: `readMessage` applied to the frame
written by `SendRequest` recovers exactly the body bytes, consuming the
whole stream.  (The declared `Content-Length` is the byte length of the
body, so `io.ReadFull` stops exactly at its end.) -/
theorem readMessage_frameBytes (content : List Nat) (h : content ≠ []) :
    readMessage (frameBytes content) = .ok content [] := by
  have hlen : 1 ≤ (frameBytes content).length := by
    rw [frameBytes]
    simp [strBytes]
  rw [readMessage]
  rw [show (frameBytes content).length + 1
      = (((frameBytes content).length - 1) + 1) + 1 from by omega]
  rw [show frameBytes content
      = strBytes "Content-Length: " ++ natToDec content.length ++ crlf
          ++ (crlf ++ content) from by rw [frameBytes]; simp]
  rw [rhb_clLine]
  rw [show (crlf ++ content : List Nat) = 13 :: 10 :: content from by simp [crlf]]
  rw [rhb_blank]
  have hne0 : ((content.length : Int) == 0) = false := by
    simp [List.length_eq_zero]
    intro hc
    exact absurd hc h
  have hnneg : ¬ ((content.length : Int) < 0) := by omega
  simp only [hne0, if_false, hnneg, Int.toNat_natCast, lt_irrefl,
    List.take_length, List.drop_length]
  simp

/-- A frame declaring `Content-Length: 0` is rejected by the
`contentLength == 0` test, whatever follows the blank line. -/
theorem readMessage_clZero (rest : List Nat) :
    readMessage (strBytes "Content-Length: 0" ++ crlf ++ crlf ++ rest)
      = .err .noContentLength := by
  have h1 : 1 ≤ (strBytes "Content-Length: 0" ++ crlf ++ crlf ++ rest).length := by
    simp [strBytes, crlf]
  rw [readMessage]
  rw [show (strBytes "Content-Length: 0" ++ crlf ++ crlf ++ rest).length + 1
      = (((strBytes "Content-Length: 0" ++ crlf ++ crlf ++ rest).length - 1) + 1) + 1
      from by omega]
  rw [show strBytes "Content-Length: 0" ++ crlf ++ crlf ++ rest
      = strBytes "Content-Length: " ++ natToDec 0 ++ crlf ++ (crlf ++ rest) from by
    have : strBytes "Content-Length: 0" = strBytes "Content-Length: " ++ natToDec 0 := by
      decide
    rw [this]
    simp]
  rw [rhb_clLine]
  rw [show (crlf ++ rest : List Nat) = 13 :: 10 :: rest from by simp [crlf]]
  rw [rhb_blank]
  simp

/-- A header block with no `Content-Length` header at all (here a lone
`Content-Type` header) leaves `contentLength` at its zero value and is
rejected by the very same `contentLength == 0` test. -/
theorem readMessage_noHeader (rest : List Nat) :
    readMessage (strBytes "Content-Type: application/json" ++ crlf ++ crlf ++ rest)
      = .err .noContentLength := by
  have h1 : 1 ≤ (strBytes "Content-Type: application/json" ++ crlf ++ crlf ++ rest).length := by
    simp [strBytes, crlf]
  rw [readMessage]
  rw [show (strBytes "Content-Type: application/json" ++ crlf ++ crlf ++ rest).length + 1
      = (((strBytes "Content-Type: application/json" ++ crlf ++ crlf ++ rest).length - 1) + 1) + 1
      from by omega]
  rw [show strBytes "Content-Type: application/json" ++ crlf ++ crlf ++ rest
      = strBytes "Content-Type: application/json" ++ crlf ++ (crlf ++ rest) from by simp]
  rw [rhb_ctypeLine]
  rw [show (crlf ++ rest : List Nat) = 13 :: 10 :: rest from by simp [crlf]]
  rw [rhb_blank]
  simp

/-- C5, counterexample: reading a message framed with `Content-Length: 0`
does NOT attempt to parse zero bytes as JSON and does NOT surface a
JSON-parse ("failed to unmarshal") error distinct from the missing-header
failure — it returns exactly the missing-header error
"no Content-Length header found". -/
theorem c5_contentLengthZero_counterexample :
    readMessage (strBytes "Content-Length: 0" ++ crlf ++ crlf)
        = ReadResult.err ReadErr.noContentLength
      ∧ ReadResult.err ReadErr.noContentLength
        ≠ ReadResult.err ReadErr.unmarshal := by
  decide

/-- C5 (amended): a frame declaring `Content-Length: 0` fails before any
body read or JSON parse with the error "no Content-Length header found" —
the same (merged, not distinct) failure produced when no `Content-Length`
header is present at all — for every continuation of the stream. -/
theorem c5_contentLengthZero_amended (rest rest' : List Nat) :
    readMessage (strBytes "Content-Length: 0" ++ crlf ++ crlf ++ rest)
        = ReadResult.err ReadErr.noContentLength
      ∧ readMessage (strBytes "Content-Type: application/json" ++ crlf ++ crlf ++ rest')
        = ReadResult.err ReadErr.noContentLength :=
  ⟨readMessage_clZero rest, readMessage_noHeader rest'⟩

/-- C6: the claim's non-digit example `Content-Length: abc` does fail with
the "invalid Content-Length header" error, but the negative example
`Content-Length: -5` passes `strconv.Atoi`, survives the `== 0` test, and
reaches `make([]byte, -5)`, which PANICS at runtime instead of returning a
FramingError — the read path is not total. -/
theorem c6_negativeContentLength_panics :
    readMessage (strBytes "Content-Length: -5" ++ crlf ++ crlf)
        = ReadResult.panicMakeSlice
      ∧ readMessage (strBytes "Content-Length: abc" ++ crlf ++ crlf)
        = ReadResult.err ReadErr.invalidContentLength := by
  decide

/-!
## JSON values

The dynamic JSON payloads (`params`, `result`, `error.data`) are modelled
as the tagged union the spec's design notes prescribe: null, bool, integer
number, byte string, array, ordered string-keyed object.  Strings are raw
byte lists; `encoding/json` measures and emits bytes, so this keeps the
byte-length arithmetic of the framing claims exact (multi-byte UTF-8
sequences are sequences of bytes here).  Numbers are integers (the only
numbers the client itself produces are ids and lengths).
-/

mutual
inductive Json where
  | null : Json
  | bool (b : Bool) : Json
  | num (n : Int) : Json
  | str (s : List Nat) : Json
  | arr (xs : JsonArr) : Json
  | obj (fs : JsonObj) : Json

inductive JsonArr where
  | nil : JsonArr
  | cons (hd : Json) (tl : JsonArr) : JsonArr

inductive JsonObj where
  | nil : JsonObj
  | cons (key : List Nat) (val : Json) (tl : JsonObj) : JsonObj
end

/-- Lower-case hex digit byte, as in `encoding/json`'s `hex` table. -/
def hexDigit (n : Nat) : Nat := if n < 10 then 48 + n else 87 + n

/-- String escaping of `encoding/json` (HTML escaping on, its default):
quote, backslash, `\n`, `\r`, `\t` get two-byte escapes; other control
bytes and `<`, `>`, `&` get `\u00xx`; everything else is emitted verbatim
(valid UTF-8 multi-byte sequences pass through byte by byte).  Strings
containing invalid UTF-8 or U+2028/U+2029 (which Go rewrites) are outside
this model; the claims quantify over valid payloads. -/
def escByte (b : Nat) : List Nat :=
  if b = 34 then [92, 34]
  else if b = 92 then [92, 92]
  else if b = 10 then [92, 110]
  else if b = 13 then [92, 114]
  else if b = 9 then [92, 116]
  else if b < 32 then [92, 117, 48, 48, hexDigit (b / 16), hexDigit (b % 16)]
  else if b = 60 || b = 62 || b = 38 then
    [92, 117, 48, 48, hexDigit (b / 16), hexDigit (b % 16)]
  else [b]

def escString : List Nat → List Nat
  | [] => []
  | b :: rest => escByte b ++ escString rest

/-- Decimal serialization of a Go integer (`encoding/json` emits base-10,
with a leading minus for negatives). -/
def serInt (n : Int) : List Nat :=
  if n < 0 then 45 :: natToDec n.natAbs else natToDec n.toNat

mutual
/-- Compact JSON serialization, byte for byte the output of
`json.Marshal` on the modelled value class. -/
def serJson : Json → List Nat
  | .null => [110, 117, 108, 108]        -- "null"
  | .bool true => [116, 114, 117, 101]   -- "true"
  | .bool false => [102, 97, 108, 115, 101]  -- "false"
  | .num n => serInt n
  | .str s => 34 :: (escString s ++ [34])
  | .arr xs => 91 :: (serArrItems xs ++ [93])
  | .obj fs => 123 :: (serObjItems fs ++ [125])

def serArrItems : JsonArr → List Nat
  | .nil => []
  | .cons v .nil => serJson v
  | .cons v (.cons w tl) => serJson v ++ 44 :: serArrItems (.cons w tl)

def serObjItems : JsonObj → List Nat
  | .nil => []
  | .cons k v .nil => serField k v
  | .cons k v (.cons k' v' tl) => serField k v ++ 44 :: serObjItems (.cons k' v' tl)

def serField (k : List Nat) (v : Json) : List Nat :=
  34 :: (escString k ++ [34]) ++ 58 :: serJson v
end

/-!
## JSON decoding

The spec-side decoder for compact JSON: claims about "decoding the body"
are settled against this parser.  It follows the JSON grammar for the
modelled value class (no interspersed whitespace, integer numbers); the
round-trip theorems below show it inverts `serJson`.
-/

/-- UTF-8 encoding of a BMP code point (what a `\uXXXX` escape denotes). -/
def utf8Enc (c : Nat) : List Nat :=
  if c < 128 then [c]
  else if c < 2048 then [192 + c / 64, 128 + c % 64]
  else [224 + c / 4096, 128 + (c / 64) % 64, 128 + c % 64]

/-- Value of one hex digit byte. -/
def hexVal (b : Nat) : Option Nat :=
  if 48 ≤ b ∧ b ≤ 57 then some (b - 48)
  else if 97 ≤ b ∧ b ≤ 102 then some (b - 87)
  else if 65 ≤ b ∧ b ≤ 70 then some (b - 55)
  else none

/-- Single-character escapes of the JSON grammar. -/
def unescChar (e : Nat) : Option Nat :=
  if e = 34 then some 34
  else if e = 92 then some 92
  else if e = 47 then some 47
  else if e = 98 then some 8
  else if e = 102 then some 12
  else if e = 110 then some 10
  else if e = 114 then some 13
  else if e = 116 then some 9
  else none

/-- Parse the remainder of a JSON string after the opening quote,
returning the decoded bytes and the stream after the closing quote. -/
def parseStrBody : List Nat → Option (List Nat × List Nat)
  | [] => none
  | b :: rest =>
    if b = 34 then some ([], rest)
    else if b = 92 then
      match rest with
      | [] => none
      | e :: rest' =>
        if e = 117 then
          match rest' with
          | h1 :: h2 :: h3 :: h4 :: rest2 =>
            match hexVal h1, hexVal h2, hexVal h3, hexVal h4 with
            | some x1, some x2, some x3, some x4 =>
              match parseStrBody rest2 with
              | some (cs, r) =>
                some (utf8Enc (((x1 * 16 + x2) * 16 + x3) * 16 + x4) ++ cs, r)
              | none => none
            | _, _, _, _ => none
          | _ => none
        else
          match unescChar e with
          | some c =>
            match parseStrBody rest' with
            | some (cs, r) => some (c :: cs, r)
            | none => none
          | none => none
    else if b < 32 then none
    else
      match parseStrBody rest with
      | some (cs, r) => some (b :: cs, r)
      | none => none

/-- Left fold of decimal digits. -/
def decVal (ds : List Nat) : Nat := ds.foldl (fun a b => a * 10 + (b - 48)) 0

/-- Parse a maximal non-empty run of decimal digits. -/
def parseNatNum (s : List Nat) : Option (Nat × List Nat) :=
  let ds := s.takeWhile isDigitByte
  if ds = [] then none else some (decVal ds, s.dropWhile isDigitByte)

mutual
/-- Fueled JSON value parser; `jsize` fuel suffices for a serialized
value. -/
def parseVal : Nat → List Nat → Option (Json × List Nat)
  | 0, _ => none
  | f + 1, s =>
    if listStartsWith [110, 117, 108, 108] s then some (.null, s.drop 4)
    else if listStartsWith [116, 114, 117, 101] s then some (.bool true, s.drop 4)
    else if listStartsWith [102, 97, 108, 115, 101] s then some (.bool false, s.drop 5)
    else
      match s with
      | [] => none
      | b :: rest =>
        if b = 34 then
          match parseStrBody rest with
          | some (cs, r) => some (.str cs, r)
          | none => none
        else if b = 91 then
          if rest.head? = some 93 then some (.arr .nil, rest.tail)
          else
            match parseArrItems f rest with
            | some (xs, r) => some (.arr xs, r)
            | none => none
        else if b = 123 then
          if rest.head? = some 125 then some (.obj .nil, rest.tail)
          else
            match parseObjItems f rest with
            | some (fs, r) => some (.obj fs, r)
            | none => none
        else if b = 45 then
          match parseNatNum rest with
          | some (n, r) => some (.num (-(n : Int)), r)
          | none => none
        else if isDigitByte b then
          match parseNatNum (b :: rest) with
          | some (n, r) => some (.num (n : Int), r)
          | none => none
        else none
termination_by f _ => (f, 0)

/-- Parse one or more comma-separated array items up to the closing
bracket. -/
def parseArrItems : Nat → List Nat → Option (JsonArr × List Nat)
  | 0, _ => none
  | f + 1, s =>
    match parseVal (f + 1) s with
    | none => none
    | some (v, r) =>
      match r with
      | 44 :: r' =>
        match parseArrItems f r' with
        | some (xs, r'') => some (.cons v xs, r'')
        | none => none
      | 93 :: r' => some (.cons v .nil, r')
      | _ => none
termination_by f _ => (f, 1)

/-- Parse one or more comma-separated `"key":value` members up to the
closing brace. -/
def parseObjItems : Nat → List Nat → Option (JsonObj × List Nat)
  | 0, _ => none
  | f + 1, s =>
    match s with
    | 34 :: rest =>
      match parseStrBody rest with
      | none => none
      | some (k, r) =>
        match r with
        | 58 :: r' =>
          match parseVal (f + 1) r' with
          | none => none
          | some (v, r'') =>
            match r'' with
            | 44 :: r3 =>
              match parseObjItems f r3 with
              | some (fs, r4) => some (.cons k v fs, r4)
              | none => none
            | 125 :: r3 => some (.cons k v .nil, r3)
            | _ => none
        | _ => none
    | _ => none
termination_by f _ => (f, 1)
end

mutual
/-- Fuel needed to parse the serialization of a value. -/
def jsize : Json → Nat
  | .null | .bool _ | .num _ | .str _ => 1
  | .arr xs => asize xs + 1
  | .obj fs => osize fs + 1

def asize : JsonArr → Nat
  | .nil => 0
  | .cons v tl => max (jsize v) (asize tl + 1)

def osize : JsonObj → Nat
  | .nil => 0
  | .cons _ v tl => max (jsize v) (osize tl + 1)
end

theorem jsize_pos (v : Json) : 1 ≤ jsize v := by
  cases v <;> simp [jsize]

theorem hexVal_hexDigit (x : Nat) (h : x < 16) : hexVal (hexDigit x) = some x := by
  interval_cases x <;> decide

/-- The `\u00xx` escape round trip for a byte below 128. -/
theorem parseStrBody_u (b : Nat) (hb : b < 128) (tail : List Nat) :
    parseStrBody (92 :: 117 :: 48 :: 48 :: hexDigit (b / 16) :: hexDigit (b % 16) :: tail)
      = match parseStrBody tail with
        | some (cs, r) => some (b :: cs, r)
        | none => none := by
  have h1 : hexVal (hexDigit (b / 16)) = some (b / 16) := hexVal_hexDigit _ (by omega)
  have h2 : hexVal (hexDigit (b % 16)) = some (b % 16) := hexVal_hexDigit _ (by omega)
  have henc : utf8Enc b = [b] := by simp [utf8Enc, hb]
  rw [parseStrBody.eq_def]
  simp only [show hexVal 48 = some 0 from by decide, h1, h2]
  norm_num
  rw [show b / 16 * 16 + b % 16 = b from by omega, henc]
  cases parseStrBody tail with
  | none => rfl
  | some p => cases p; simp

/-- String escaping round trip: parsing the escaped bytes followed by the
closing quote recovers the original byte string. -/
theorem parseStrBody_escString (s rest : List Nat) :
    parseStrBody (escString s ++ 34 :: rest) = some (s, rest) := by
  induction s with
  | nil =>
    rw [show escString [] ++ 34 :: rest = 34 :: rest from by simp [escString]]
    rw [parseStrBody.eq_def]
    simp
  | cons b t ih =>
    rw [escString, escByte]
    by_cases h34 : b = 34
    · subst h34
      rw [parseStrBody.eq_def]
      simp [unescChar, ih]
    · rw [if_neg h34]
      by_cases h92 : b = 92
      · subst h92
        rw [parseStrBody.eq_def]
        simp [unescChar, ih]
      · rw [if_neg h92]
        by_cases h10 : b = 10
        · subst h10
          rw [parseStrBody.eq_def]
          simp [unescChar, ih]
        · rw [if_neg h10]
          by_cases h13 : b = 13
          · subst h13
            rw [parseStrBody.eq_def]
            simp [unescChar, ih]
          · rw [if_neg h13]
            by_cases h9 : b = 9
            · subst h9
              rw [parseStrBody.eq_def]
              simp [unescChar, ih]
            · rw [if_neg h9]
              by_cases hctl : b < 32
              · rw [if_pos hctl]
                have := parseStrBody_u b (by omega) (escString t ++ 34 :: rest)
                simp only [List.cons_append, List.nil_append] at this ⊢
                rw [this, ih]
              · rw [if_neg hctl]
                by_cases hhtml : b = 60 ∨ b = 62 ∨ b = 38
                · have hb' : (b = 60 || b = 62 || b = 38) = true := by
                    rcases hhtml with h | h | h <;> simp [h]
                  rw [if_pos hb']
                  have := parseStrBody_u b (by omega) (escString t ++ 34 :: rest)
                  simp only [List.cons_append, List.nil_append] at this ⊢
                  rw [this, ih]
                · have hb' : (b = 60 || b = 62 || b = 38) = false := by
                    simp only [Bool.or_eq_false_iff, decide_eq_false_iff_not]
                    push_neg at hhtml
                    exact ⟨⟨hhtml.1, hhtml.2.1⟩, hhtml.2.2⟩
                  rw [if_neg (by simp [hb'])]
                  rw [show ([b] : List Nat) ++ escString t ++ 34 :: rest
                      = b :: (escString t ++ 34 :: rest) from by simp]
                  rw [parseStrBody.eq_def]
                  simp only [if_neg h34, if_neg h92, if_neg (show ¬ b < 32 from by omega), ih]

theorem parseDigitsAcc_eq_fold (ds : List Nat) :
    ∀ acc, (∀ b ∈ ds, isDigitByte b = true) →
      parseDigitsAcc acc ds
        = some (ds.foldl (fun a b => a * 10 + (b - 48)) acc) := by
  induction ds with
  | nil => intro acc _; rfl
  | cons b bs ih =>
    intro acc h
    have hb : isDigitByte b = true := h b (by simp)
    rw [parseDigitsAcc, if_pos hb, List.foldl_cons,
      ih _ (fun c hc => h c (by simp [hc]))]

theorem parseDigitsAcc_natToDec (n : Nat) :
    parseDigitsAcc 0 (natToDec n) = some n := by
  have := parseDigitsAcc_natToDecGo (n + 1) n 0 [] (by omega)
  simpa [natToDec, parseDigitsAcc] using this

theorem decVal_natToDec (n : Nat) : decVal (natToDec n) = n := by
  have h1 := parseDigitsAcc_natToDec n
  have h2 := parseDigitsAcc_eq_fold (natToDec n) 0 (natToDec_digits n)
  rw [h1] at h2
  exact (Option.some.inj h2).symm

/-- No-digit-at-head condition: the byte after a serialized number is
never a digit, so the maximal-digit-run parse stops exactly there. -/
def noDigitHead (l : List Nat) : Prop :=
  ∀ b, l.head? = some b → isDigitByte b = false

theorem noDigitHead_nil : noDigitHead [] := by
  intro b hb
  simp at hb

theorem noDigitHead_cons {b : Nat} (h : isDigitByte b = false) (l : List Nat) :
    noDigitHead (b :: l) := by
  intro c hc
  simp at hc
  rwa [← hc]

theorem takeWhile_digits_append (xs ys : List Nat)
    (hxs : ∀ b ∈ xs, isDigitByte b = true) (hys : noDigitHead ys) :
    (xs ++ ys).takeWhile isDigitByte = xs
      ∧ (xs ++ ys).dropWhile isDigitByte = ys := by
  induction xs with
  | nil =>
    cases ys with
    | nil => simp
    | cons c cs =>
      have := hys c rfl
      simp [List.takeWhile_cons, List.dropWhile_cons, this]
  | cons b bs ih =>
    have hb : isDigitByte b = true := hxs b (by simp)
    have := ih (fun c hc => hxs c (by simp [hc]))
    simp [List.takeWhile_cons, List.dropWhile_cons, hb, this.1, this.2]

theorem parseNatNum_natToDec (n : Nat) (rest : List Nat) (hrest : noDigitHead rest) :
    parseNatNum (natToDec n ++ rest) = some (n, rest) := by
  obtain ⟨ht, hd⟩ := takeWhile_digits_append _ _ (natToDec_digits n) hrest
  rw [parseNatNum]
  simp only [ht, hd]
  rw [if_neg (natToDec_ne_nil n), decVal_natToDec]

theorem listStartsWith_cons_false (c : Nat) (p : List Nat) (b : Nat)
    (bs : List Nat) (h : c ≠ b) : listStartsWith (c :: p) (b :: bs) = false := by
  simp [listStartsWith, h]

theorem natToDec_head (n : Nat) :
    ∃ b bs, natToDec n = b :: bs ∧ 48 ≤ b ∧ b ≤ 57 := by
  cases h : natToDec n with
  | nil => exact absurd h (natToDec_ne_nil n)
  | cons b bs =>
    have := natToDec_digits n b (by rw [h]; simp)
    simp [isDigitByte] at this
    exact ⟨b, bs, rfl, this⟩

/-- Every serialized JSON value starts with a byte other than `]`. -/
theorem serJson_head_ne93 (v : Json) : ∃ b t, serJson v = b :: t ∧ b ≠ 93 := by
  cases v with
  | null => exact ⟨110, [117, 108, 108], by simp [serJson], by omega⟩
  | bool b =>
    cases b with
    | false => exact ⟨102, [97, 108, 115, 101], by simp [serJson], by omega⟩
    | true => exact ⟨116, [114, 117, 101], by simp [serJson], by omega⟩
  | num n =>
    by_cases hn : n < 0
    · exact ⟨45, natToDec n.natAbs, by simp [serJson, serInt, hn], by omega⟩
    · obtain ⟨b, bs, hb, h1, h2⟩ := natToDec_head n.toNat
      exact ⟨b, bs, by simp [serJson, serInt, hn, hb], by omega⟩
  | str s => exact ⟨34, escString s ++ [34], by simp [serJson], by omega⟩
  | arr xs => exact ⟨91, serArrItems xs ++ [93], by simp [serJson], by omega⟩
  | obj fs => exact ⟨123, serObjItems fs ++ [125], by simp [serJson], by omega⟩

/-- A non-empty serialized item list starts with its first item's bytes. -/
theorem serArrItems_cons_append (v : Json) (tl : JsonArr) (X : List Nat) :
    ∃ u, serArrItems (JsonArr.cons v tl) ++ X = serJson v ++ u := by
  cases tl with
  | nil => exact ⟨X, by simp [serArrItems]⟩
  | cons w tl' =>
    exact ⟨44 :: serArrItems (JsonArr.cons w tl') ++ X, by simp [serArrItems]⟩

/-- A non-empty serialized member list starts with the opening quote of
its first key. -/
theorem serObjItems_cons_head (k : List Nat) (v : Json) (tl : JsonObj) :
    ∃ z, serObjItems (JsonObj.cons k v tl) = 34 :: z := by
  cases tl with
  | nil => exact ⟨(escString k ++ [34]) ++ 58 :: serJson v, by simp [serObjItems, serField]⟩
  | cons k' v' tl' =>
    exact ⟨((escString k ++ [34]) ++ 58 :: serJson v)
        ++ 44 :: serObjItems (JsonObj.cons k' v' tl'), by simp [serObjItems, serField]⟩

/-- The serializer/parser round trip, by induction on the parser fuel:
with fuel at least the size of the value, parsing its serialization (with
any non-digit-headed continuation) recovers the value exactly. -/
theorem parse_ser (f : Nat) :
    (∀ v rest, jsize v ≤ f → noDigitHead rest →
        parseVal f (serJson v ++ rest) = some (v, rest))
    ∧ (∀ v tl rest, asize (JsonArr.cons v tl) ≤ f →
        parseArrItems f (serArrItems (JsonArr.cons v tl) ++ 93 :: rest)
          = some (JsonArr.cons v tl, rest))
    ∧ (∀ k v tl rest, osize (JsonObj.cons k v tl) ≤ f →
        parseObjItems f (serObjItems (JsonObj.cons k v tl) ++ 125 :: rest)
          = some (JsonObj.cons k v tl, rest)) := by
  induction f with
  | zero =>
    refine ⟨?_, ?_, ?_⟩
    · intro v rest hsz _
      exact absurd hsz (by have := jsize_pos v; omega)
    · intro v tl rest hsz
      have h1 := jsize_pos v
      have h2 : asize (JsonArr.cons v tl) = max (jsize v) (asize tl + 1) := by
        simp [asize]
      omega
    · intro k v tl rest hsz
      have h1 := jsize_pos v
      have h2 : osize (JsonObj.cons k v tl) = max (jsize v) (osize tl + 1) := by
        simp [osize]
      omega
  | succ f ih =>
    obtain ⟨ihv, iha, iho⟩ := ih
    have hval : ∀ v rest, jsize v ≤ f + 1 → noDigitHead rest →
        parseVal (f + 1) (serJson v ++ rest) = some (v, rest) := by
      intro v rest hsz hnd
      cases v with
      | null =>
        rw [show serJson Json.null = [110, 117, 108, 108] from by simp [serJson]]
        rw [parseVal.eq_def]
        simp [listStartsWith]
      | bool b =>
        cases b with
        | false =>
          rw [show serJson (Json.bool false) = [102, 97, 108, 115, 101] from by
            simp [serJson]]
          rw [parseVal.eq_def]
          simp [listStartsWith]
        | true =>
          rw [show serJson (Json.bool true) = [116, 114, 117, 101] from by
            simp [serJson]]
          rw [parseVal.eq_def]
          simp [listStartsWith]
      | str cs =>
        rw [show serJson (Json.str cs) ++ rest
            = 34 :: (escString cs ++ 34 :: rest) from by simp [serJson]]
        rw [parseVal.eq_def]
        simp [listStartsWith, parseStrBody_escString]
      | num n =>
        by_cases hn : n < 0
        · rw [show serJson (Json.num n) ++ rest
              = 45 :: (natToDec n.natAbs ++ rest) from by simp [serJson, serInt, hn]]
          rw [parseVal.eq_def]
          have hnum := parseNatNum_natToDec n.natAbs rest hnd
          simp [listStartsWith, hnum]
          rw [abs_of_neg hn]
          ring
        · obtain ⟨b, bs, hb, hb1, hb2⟩ := natToDec_head n.toNat
          rw [show serJson (Json.num n) ++ rest
              = b :: (bs ++ rest) from by simp [serJson, serInt, hn, hb]]
          rw [parseVal.eq_def]
          have hnum : parseNatNum (b :: (bs ++ rest)) = some (n.toNat, rest) := by
            rw [show b :: (bs ++ rest) = (b :: bs) ++ rest from by simp, ← hb]
            exact parseNatNum_natToDec n.toNat rest hnd
          have hcast : ((n.toNat : Nat) : Int) = n := by omega
          simp [listStartsWith_cons_false _ _ _ _ (show (110 : Nat) ≠ b from by omega),
            listStartsWith_cons_false _ _ _ _ (show (116 : Nat) ≠ b from by omega),
            listStartsWith_cons_false _ _ _ _ (show (102 : Nat) ≠ b from by omega),
            show ¬ b = 34 from by omega, show ¬ b = 91 from by omega,
            show ¬ b = 123 from by omega, show ¬ b = 45 from by omega,
            show isDigitByte b = true from by simp [isDigitByte]; omega,
            hnum, hcast]
      | arr xs =>
        cases xs with
        | nil =>
          rw [show serJson (Json.arr JsonArr.nil) ++ rest = 91 :: 93 :: rest from by
            simp [serJson, serArrItems]]
          rw [parseVal.eq_def]
          simp [listStartsWith]
        | cons v tl =>
          rw [show serJson (Json.arr (JsonArr.cons v tl)) ++ rest
              = 91 :: (serArrItems (JsonArr.cons v tl) ++ 93 :: rest) from by
            simp [serJson]]
          rw [parseVal.eq_def]
          obtain ⟨u, hu⟩ := serArrItems_cons_append v tl (93 :: rest)
          obtain ⟨b0, t0, hb0, hb93⟩ := serJson_head_ne93 v
          have hhead : (serArrItems (JsonArr.cons v tl) ++ 93 :: rest).head? = some b0 := by
            rw [hu, hb0]
            simp
          have hsz' : asize (JsonArr.cons v tl) ≤ f := by
            have : jsize (Json.arr (JsonArr.cons v tl))
                = asize (JsonArr.cons v tl) + 1 := by simp [jsize]
            omega
          have harr := iha v tl rest hsz'
          simp [listStartsWith, hhead, hb93, harr]
      | obj fs =>
        cases fs with
        | nil =>
          rw [show serJson (Json.obj JsonObj.nil) ++ rest = 123 :: 125 :: rest from by
            simp [serJson, serObjItems]]
          rw [parseVal.eq_def]
          simp [listStartsWith]
        | cons k v tl =>
          rw [show serJson (Json.obj (JsonObj.cons k v tl)) ++ rest
              = 123 :: (serObjItems (JsonObj.cons k v tl) ++ 125 :: rest) from by
            simp [serJson]]
          rw [parseVal.eq_def]
          obtain ⟨z, hz⟩ := serObjItems_cons_head k v tl
          have hhead : (serObjItems (JsonObj.cons k v tl) ++ 125 :: rest).head? = some 34 := by
            rw [hz]
            simp
          have hsz' : osize (JsonObj.cons k v tl) ≤ f := by
            have : jsize (Json.obj (JsonObj.cons k v tl))
                = osize (JsonObj.cons k v tl) + 1 := by simp [jsize]
            omega
          have hobj := iho k v tl rest hsz'
          simp [listStartsWith, hhead, hobj]
    refine ⟨hval, ?_, ?_⟩
    · intro v tl rest hsz
      have hmax : max (jsize v) (asize tl + 1) ≤ f + 1 := by
        have : asize (JsonArr.cons v tl) = max (jsize v) (asize tl + 1) := by
          simp [asize]
        omega
      have hjv : jsize v ≤ f + 1 := by omega
      cases tl with
      | nil =>
        rw [show serArrItems (JsonArr.cons v JsonArr.nil) ++ 93 :: rest
            = serJson v ++ 93 :: rest from by simp [serArrItems]]
        have h1 := hval v (93 :: rest) hjv (noDigitHead_cons (by decide) _)
        rw [parseArrItems.eq_def]
        simp [h1]
      | cons w tl' =>
        rw [show serArrItems (JsonArr.cons v (JsonArr.cons w tl')) ++ 93 :: rest
            = serJson v ++ 44 :: (serArrItems (JsonArr.cons w tl') ++ 93 :: rest)
            from by simp [serArrItems]]
        have h1 := hval v (44 :: (serArrItems (JsonArr.cons w tl') ++ 93 :: rest))
          hjv (noDigitHead_cons (by decide) _)
        have hsz'' : asize (JsonArr.cons w tl') ≤ f := by
          have : asize (JsonArr.cons w tl')
              = max (jsize w) (asize tl' + 1) := by simp [asize]
          omega
        have h2 := iha w tl' rest hsz''
        rw [parseArrItems.eq_def]
        simp [h1, h2]
    · intro k v tl rest hsz
      have hmax : max (jsize v) (osize tl + 1) ≤ f + 1 := by
        have : osize (JsonObj.cons k v tl) = max (jsize v) (osize tl + 1) := by
          simp [osize]
        omega
      have hjv : jsize v ≤ f + 1 := by omega
      cases tl with
      | nil =>
        rw [show serObjItems (JsonObj.cons k v JsonObj.nil) ++ 125 :: rest
            = 34 :: (escString k ++ 34 :: (58 :: (serJson v ++ 125 :: rest)))
            from by simp [serObjItems, serField]]
        have h0 := parseStrBody_escString k (58 :: (serJson v ++ 125 :: rest))
        have h1 := hval v (125 :: rest) hjv (noDigitHead_cons (by decide) _)
        rw [parseObjItems.eq_def]
        simp [h0, h1]
      | cons k' v' tl' =>
        rw [show serObjItems (JsonObj.cons k v (JsonObj.cons k' v' tl')) ++ 125 :: rest
            = 34 :: (escString k ++ 34 :: (58 ::
                (serJson v ++ 44 :: (serObjItems (JsonObj.cons k' v' tl') ++ 125 :: rest))))
            from by simp [serObjItems, serField]]
        have h0 := parseStrBody_escString k (58 ::
          (serJson v ++ 44 :: (serObjItems (JsonObj.cons k' v' tl') ++ 125 :: rest)))
        have h1 := hval v (44 :: (serObjItems (JsonObj.cons k' v' tl') ++ 125 :: rest))
          hjv (noDigitHead_cons (by decide) _)
        have hsz'' : osize (JsonObj.cons k' v' tl') ≤ f := by
          have : osize (JsonObj.cons k' v' tl')
              = max (jsize v') (osize tl' + 1) := by simp [osize]
          omega
        have h2 := iho k' v' tl' rest hsz''
        rw [parseObjItems.eq_def]
        simp [h0, h1, h2]

/-- Round trip at exactly `jsize` fuel on the bare serialization. -/
theorem parseVal_serJson (v : Json) :
    parseVal (jsize v) (serJson v) = some (v, []) := by
  have := (parse_ser (jsize v)).1 v [] le_rfl noDigitHead_nil
  simpa using this

/-!
## The marshalled request document

`JSONRPCRequest` (main.go lines 19-24) marshals with its struct field
order: `jsonrpc`, `id` (omitted when the `*int` is nil — notifications),
`method`, `params` (omitted when nil).
-/

def objLookup (key : List Nat) : JsonObj → Option Json
  | .nil => none
  | .cons k v tl => if k = key then some v else objLookup key tl

def jsonField (j : Json) (key : List Nat) : Option Json :=
  match j with
  | .obj fs => objLookup key fs
  | _ => none

def paramsTail (params : Option Json) : JsonObj :=
  match params with
  | none => .nil
  | some p => .cons (strBytes "params") p .nil

def methodTail (method : List Nat) (params : Option Json) : JsonObj :=
  .cons (strBytes "method") (.str method) (paramsTail params)

/-- The fields of the marshalled `JSONRPCRequest`. -/
def requestFields (method : List Nat) (id : Option Int) (params : Option Json) :
    JsonObj :=
  .cons (strBytes "jsonrpc") (.str (strBytes "2.0"))
    (match id with
     | none => methodTail method params
     | some i => .cons (strBytes "id") (.num i) (methodTail method params))

/-- The JSON document `json.Marshal` produces for a request (notification:
`id = none`). -/
def requestJson (method : List Nat) (id : Option Int) (params : Option Json) :
    Json :=
  .obj (requestFields method id params)

/-- C3: for every (method, params) pair (and request id), the frame
written by `SendRequest` declares as `Content-Length` exactly the byte
length of the compact JSON body — reading the frame back recovers
precisely the body bytes with nothing left over — and decoding that body
yields the request document, whose `jsonrpc` (protocol version) field is
`"2.0"` and whose `method` field is the given method. -/
theorem c3_request_frame_roundtrip (method : List Nat) (id : Int)
    (params : Option Json) :
    readMessage (frameBytes (serJson (requestJson method (some id) params)))
        = ReadResult.ok (serJson (requestJson method (some id) params)) []
      ∧ parseVal (jsize (requestJson method (some id) params))
            (serJson (requestJson method (some id) params))
          = some (requestJson method (some id) params, [])
      ∧ jsonField (requestJson method (some id) params) (strBytes "jsonrpc")
          = some (.str (strBytes "2.0"))
      ∧ jsonField (requestJson method (some id) params) (strBytes "method")
          = some (.str method) := by
  refine ⟨?_, parseVal_serJson _, ?_, ?_⟩
  · apply readMessage_frameBytes
    simp [serJson, requestJson]
  · simp [jsonField, requestJson, requestFields, objLookup]
  · simp [jsonField, requestJson, requestFields, methodTail, objLookup,
      show ¬ (strBytes "jsonrpc" = strBytes "method") from by decide,
      show ¬ (strBytes "id" = strBytes "method") from by decide]

/-!
## Protocol client

The client-level operations over decoded messages.  An incoming stream is
a `List Msg` of the successive successful decodes (the transport-level
decoding itself is the byte layer above); the failure points of the Go
code that depend on the environment — `json.Marshal` of caller-supplied
params, stream writes, the child process — appear as explicit oracles, so
each theorem ranges over every possible outcome of those steps.
-/

/-- A decoded `JSONRPCError` (main.go lines 26-30). -/
structure ErrObj where
  code : Int
  message : String
deriving DecidableEq, Repr

/-- One decoded incoming message as the receive loop of `ReadResponse`
sees it after its two unmarshals (main.go lines 176-187): the
`JSONRPCResponse` fields plus the `method` probe, which is the empty
string when the message carries no (string) method field.  `id` is 0 when
absent (Go's zero value). -/
structure Msg where
  method : String
  id : Int
  result : Option Json
  err : Option ErrObj

/-- Log events emitted by the client (`slog` calls in main.go). -/
inductive LogEv where
  /-- Debug "Sending LSP request" (line 95, before marshalling). -/
  | sendingRequest (method : String) (id : Int) : LogEv
  /-- Debug "Sending LSP notification" (line 119, before marshalling). -/
  | sendingNotification (method : String) : LogEv
  /-- Debug "Received LSP message" (line 181). -/
  | receivedMessage (id expected : Int) : LogEv
  /-- Debug "Received LSP notification" (line 190). -/
  | receivedNotification (method : String) : LogEv
  /-- Debug "Received unexpected response ID" (line 199). -/
  | unexpectedId (received expected : Int) : LogEv
  /-- Warn "Failed to close stdin/stdout/stderr" (lines 250-256). -/
  | warnCloseStdin : LogEv
  | warnCloseStdout : LogEv
  | warnCloseStderr : LogEv
deriving DecidableEq, Repr

/-- The receive loop of `ReadResponse` (main.go lines 181-200) over the
decoded messages: log every message; a message with a non-empty method is
logged as a notification and skipped; a message with the expected id is
returned; any other id is logged as unexpected and skipped.  `none`
models the loop running out of stream (the next read attempt fails). -/
def readResponseLoop (expected : Int) : List Msg → Option Msg × List LogEv
  | [] => (none, [])
  | m :: rest =>
    let l0 := LogEv.receivedMessage m.id expected
    if m.method ≠ "" then
      let (r, ls) := readResponseLoop expected rest
      (r, l0 :: LogEv.receivedNotification m.method :: ls)
    else if m.id = expected then (some m, [l0])
    else
      let (r, ls) := readResponseLoop expected rest
      (r, l0 :: LogEv.unexpectedId m.id expected :: ls)

/-- The session state of `LSPClient` that the protocol logic touches: the
next request id. -/
structure ClientState where
  id : Int
deriving DecidableEq, Repr

/-- `NewLSPClient` starts the id counter at 1 (main.go line 80). -/
def initClient : ClientState := ⟨1⟩

/-- The failure modes of a send operation. -/
inductive SendErr where
  | marshalFail : SendErr
  | writeFail : SendErr
  | readFail : SendErr
deriving DecidableEq, Repr

/-- A frame the client wrote: its method and its id field (`none` when the
`omitempty` `*int` id is nil, i.e. a notification).  The byte-level frame
for such a message is `frameBytes (serJson (requestJson …))` above. -/
structure SentMsg where
  method : String
  id : Option Int
deriving DecidableEq, Repr

structure ReqOut where
  res : Except SendErr Msg
  st : ClientState
  sent : List SentMsg
  log : List LogEv
  assigned : Int

/-- `SendRequest` (main.go lines 85-110): the id is read from the counter
and the counter incremented FIRST (lines 86-87); the attempt is logged;
then the request is marshalled (`mOk` — false for unmarshalable params),
written (`wOk`), and the receive loop runs over the decoded messages the
server delivers. -/
def sendRequest (st : ClientState) (method : String) (mOk wOk : Bool)
    (incoming : List Msg) : ReqOut :=
  let i := st.id
  let st' : ClientState := ⟨st.id + 1⟩
  let lg := [LogEv.sendingRequest method i]
  if mOk then
    if wOk then
      match readResponseLoop i incoming with
      | (some m, ls) => ⟨.ok m, st', [⟨method, some i⟩], lg ++ ls, i⟩
      | (none, ls) => ⟨.error .readFail, st', [⟨method, some i⟩], lg ++ ls, i⟩
    else ⟨.error .writeFail, st', [], lg, i⟩
  else ⟨.error .marshalFail, st', [], lg, i⟩

structure NotifOut where
  res : Except SendErr Unit
  st : ClientState
  sent : List SentMsg
  log : List LogEv

/-- `SendNotification` (main.go lines 112-134): never touches the id
counter; the marshalled message has no id field; no response is read. -/
def sendNotification (st : ClientState) (method : String) (mOk wOk : Bool) :
    NotifOut :=
  let lg := [LogEv.sendingNotification method]
  if mOk then
    if wOk then ⟨.ok (), st, [⟨method, none⟩], lg⟩
    else ⟨.error .writeFail, st, [], lg⟩
  else ⟨.error .marshalFail, st, [], lg⟩

/-- The receive loop returns exactly the first decoded message that has an
empty method field and the expected id. -/
theorem readResponseLoop_eq_find (E : Int) (msgs : List Msg) :
    (readResponseLoop E msgs).1
      = msgs.find? (fun m => m.method == "" && m.id == E) := by
  induction msgs with
  | nil => rfl
  | cons m rest ih =>
    rw [readResponseLoop]
    by_cases hm : m.method = ""
    · by_cases hid : m.id = E
      · simp [hm, hid, List.find?]
      · simp [hm, hid, List.find?, ih, beq_eq_false_iff_ne.mpr hid]
    · simp [hm, List.find?, ih, beq_eq_false_iff_ne.mpr hm]

/-- C1: the receive loop of `SendRequest` returns exactly the first
decoded message with an empty method field and the pending id, discarding
(and logging) every message with a non-empty method and every mismatched
id; in particular, for a stream presenting a notification followed by the
matching response, `SendRequest` returns the response and the notification
is logged, never mistaken for the response. -/
theorem c1_receive_loop_correlation (E : Int) (msgs : List Msg)
    (st : ClientState) (method : String) :
    (readResponseLoop E msgs).1
        = msgs.find? (fun m => m.method == "" && m.id == E)
      ∧ (sendRequest st method true true msgs).res
        = (match msgs.find? (fun m => m.method == "" && m.id == st.id) with
           | some m => Except.ok m
           | none => Except.error SendErr.readFail)
      ∧ (∀ (notif resp : Msg) (rest : List Msg),
          notif.method ≠ "" → resp.method = "" → resp.id = E →
            (readResponseLoop E (notif :: resp :: rest)).1 = some resp
            ∧ LogEv.receivedNotification notif.method
                ∈ (readResponseLoop E (notif :: resp :: rest)).2) := by
  refine ⟨readResponseLoop_eq_find E msgs, ?_, ?_⟩
  · rw [sendRequest]
    simp only [if_pos rfl]
    rw [show (readResponseLoop st.id msgs)
        = ((readResponseLoop st.id msgs).1, (readResponseLoop st.id msgs).2) from rfl]
    rw [readResponseLoop_eq_find st.id msgs]
    cases msgs.find? (fun m => m.method == "" && m.id == st.id) <;> simp
  · intro notif resp rest hn hr hid
    constructor
    · rw [readResponseLoop_eq_find]
      simp [List.find?, hn, hr, hid, beq_eq_false_iff_ne.mpr hn]
    · rw [readResponseLoop]
      simp only [if_pos hn]
      rw [show (readResponseLoop E (resp :: rest))
          = ((readResponseLoop E (resp :: rest)).1,
             (readResponseLoop E (resp :: rest)).2) from rfl]
      simp

/-- Witness for C1 at a concrete stream: a publishDiagnostics
notification followed by the response with the pending id 7. -/
theorem c1_receive_loop_witness :
    (readResponseLoop 7 [⟨"textDocument/publishDiagnostics", 0, none, none⟩,
        ⟨"", 7, none, none⟩]).1 = some ⟨"", 7, none, none⟩
      ∧ LogEv.receivedNotification "textDocument/publishDiagnostics"
        ∈ (readResponseLoop 7 [⟨"textDocument/publishDiagnostics", 0, none, none⟩,
            ⟨"", 7, none, none⟩]).2 :=
  (c1_receive_loop_correlation 7 [] initClient "workspace/symbol").2.2
    ⟨"textDocument/publishDiagnostics", 0, none, none⟩
    ⟨"", 7, none, none⟩ [] (by decide) rfl rfl

theorem sendRequest_st (st : ClientState) (method : String) (mOk wOk : Bool)
    (incoming : List Msg) :
    (sendRequest st method mOk wOk incoming).st = ⟨st.id + 1⟩ := by
  rw [sendRequest]
  by_cases hm : mOk = true
  · by_cases hw : wOk = true
    · simp only [hm, hw, if_true]
      rcases h : readResponseLoop st.id incoming with ⟨r, ls⟩
      cases r <;> simp
    · simp [hm, hw]
  · simp [hm]

theorem sendRequest_assigned (st : ClientState) (method : String)
    (mOk wOk : Bool) (incoming : List Msg) :
    (sendRequest st method mOk wOk incoming).assigned = st.id := by
  rw [sendRequest]
  by_cases hm : mOk = true
  · by_cases hw : wOk = true
    · simp only [hm, hw, if_true]
      rcases h : readResponseLoop st.id incoming with ⟨r, ls⟩
      cases r <;> simp
    · simp [hm, hw]
  · simp [hm]

/-- The environment of one `SendRequest` call: its method and the
outcomes of its fallible steps. -/
structure CallSpec where
  method : String
  mOk : Bool
  wOk : Bool
  incoming : List Msg

/-- A sequence of `SendRequest` calls on one session, collecting the id
assigned to each call. -/
def runRequests : ClientState → List CallSpec → List Int × ClientState
  | st, [] => ([], st)
  | st, c :: cs =>
    ((sendRequest st c.method c.mOk c.wOk c.incoming).assigned
        :: (runRequests (sendRequest st c.method c.mOk c.wOk c.incoming).st cs).1,
      (runRequests (sendRequest st c.method c.mOk c.wOk c.incoming).st cs).2)

theorem runRequests_ids (specs : List CallSpec) : ∀ k : Nat,
    (runRequests ⟨(k : Int)⟩ specs).1
        = List.map (fun n : Nat => (n : Int)) (List.range' k specs.length)
      ∧ (runRequests ⟨(k : Int)⟩ specs).2.id = ((k + specs.length : Nat) : Int) := by
  induction specs with
  | nil => intro k; simp [runRequests]
  | cons c cs ih =>
    intro k
    obtain ⟨h1, h2⟩ := ih (k + 1)
    have hst : (sendRequest ⟨(k : Int)⟩ c.method c.mOk c.wOk c.incoming).st
        = ⟨((k + 1 : Nat) : Int)⟩ := by
      rw [sendRequest_st]
      simp
    have has : (sendRequest ⟨(k : Int)⟩ c.method c.mOk c.wOk c.incoming).assigned
        = ((k : Nat) : Int) := sendRequest_assigned _ _ _ _ _
    rw [runRequests, hst, has]
    constructor
    · rw [h1]
      simp only [List.length_cons, List.range'_succ, List.map_cons]
    · rw [h2]
      exact congrArg (fun n : Nat => (n : Int)) (by simp; omega)

/-- C2: starting from `NewLSPClient`'s state, N `SendRequest` calls are
assigned exactly the ids 1, 2, ..., N in call order — whatever each call's
marshal/write/read outcome — the counter ends at N + 1, and
`SendNotification` neither consumes an id (state unchanged) nor puts an id
field on the message it writes. -/
theorem c2_monotonic_ids (specs : List CallSpec) (st : ClientState)
    (method : String) (mOk wOk : Bool) :
    (runRequests initClient specs).1
        = List.map (fun n : Nat => (n : Int)) (List.range' 1 specs.length)
      ∧ (runRequests initClient specs).2.id = ((1 + specs.length : Nat) : Int)
      ∧ (sendNotification st method mOk wOk).st = st
      ∧ ∀ sm ∈ (sendNotification st method mOk wOk).sent, sm.id = none := by
  obtain ⟨h1, h2⟩ := runRequests_ids specs 1
  have hinit : initClient = (⟨((1 : Nat) : Int)⟩ : ClientState) := rfl
  refine ⟨by rw [hinit]; exact h1, by rw [hinit]; exact h2, ?_, ?_⟩
  · rw [sendNotification]
    by_cases hm : mOk = true
    · by_cases hw : wOk = true
      · simp [hm, hw]
      · simp [hm, hw]
    · simp [hm]
  · intro sm hsm
    rw [sendNotification] at hsm
    by_cases hm : mOk = true
    · by_cases hw : wOk = true
      · simp [hm, hw] at hsm
        simp [hsm]
      · simp [hm, hw] at hsm
    · simp [hm] at hsm

/-- Witness for C2: two concrete calls get ids 1 and 2; a notification
leaves the state unchanged and carries no id. -/
theorem c2_monotonic_ids_witness :
    (runRequests initClient [⟨"initialize", true, true, []⟩,
        ⟨"textDocument/hover", true, true, []⟩]).1 = [1, 2]
      ∧ (sendNotification initClient "initialized" true true).st = initClient
      ∧ (⟨"initialized", none⟩ : SentMsg).id = none := by
  have h := c2_monotonic_ids [⟨"initialize", true, true, []⟩,
      ⟨"textDocument/hover", true, true, []⟩] initClient "initialized" true true
  refine ⟨?_, h.2.2.1, ?_⟩
  · rw [h.1]
    decide
  · exact h.2.2.2 ⟨"initialized", none⟩ (by simp [sendNotification])

/-- C10: every `SendRequest` call advances the id counter by exactly one
and assigns the pre-increment id, whatever the outcome of the marshal,
write and read steps — in particular the counter stays advanced (is never
rolled back) when the call fails at the marshal or write step. -/
theorem c10_id_consumed_on_failure (st : ClientState) (method : String)
    (mOk wOk : Bool) (incoming : List Msg) :
    (sendRequest st method mOk wOk incoming).st.id = st.id + 1
      ∧ (sendRequest st method mOk wOk incoming).assigned = st.id
      ∧ (sendRequest st method false wOk incoming).res
          = Except.error SendErr.marshalFail
      ∧ (sendRequest st method true false incoming).res
          = Except.error SendErr.writeFail := by
  refine ⟨by rw [sendRequest_st], by rw [sendRequest_assigned], ?_, ?_⟩
  · simp [sendRequest]
  · simp [sendRequest]

/-- The observable outcome of `ReadResponse` under a deadline schedule. -/
inductive CtxReadResult where
  | response (m : Msg) : CtxReadResult
  | deadlineExceeded : CtxReadResult
  | streamErr : CtxReadResult

/-- `ReadResponse` with the loop-top context check (main.go lines 137-142)
made explicit: `ctxDoneAt` is the number of loop iterations that begin
before the caller's deadline elapses.  An iteration that begins with the
deadline already elapsed returns `ctx.Err()` (DeadlineExceeded) from the
`select`.  If the decoded-message stream is exhausted while the loop still
runs, the blocking header read (line 147) ends only when the expiring
context kills the child process and the pipe yields EOF; that read error —
"failed to read header line", not DeadlineExceeded — is returned directly
without another context check (lines 148-150). -/
def readResponseCtx : Nat → Int → List Msg → CtxReadResult
  | 0, _, _ => .deadlineExceeded
  | _ + 1, _, [] => .streamErr
  | k + 1, expected, m :: rest =>
    if m.method ≠ "" then readResponseCtx k expected rest
    else if m.id = expected then .response m
    else readResponseCtx k expected rest

/-- C4, counterexample: against a server that never sends anything, the
deadline elapses during the first blocking read (one iteration began
before it) and `ReadResponse` surfaces the header read error produced by
the killed child's EOF — not DeadlineExceeded. -/
theorem c4_deadline_counterexample :
    readResponseCtx 1 7 [] = CtxReadResult.streamErr
      ∧ CtxReadResult.streamErr ≠ CtxReadResult.deadlineExceeded :=
  ⟨rfl, fun h => CtxReadResult.noConfusion h⟩

/-- C4 (amended): the deadline is observed only between messages.  If the
deadline elapses after `k` iterations and the server has delivered at
least `k` messages none of which is the matching response, the loop-top
check fires and `SendRequest` returns DeadlineExceeded; a deadline that
elapses while the read is blocked on a silent server surfaces as a read
error instead (see the counterexample). -/
theorem c4_deadline_amended (k : Nat) (E : Int) (msgs : List Msg)
    (hlen : k ≤ msgs.length)
    (hnomatch : ∀ m ∈ msgs.take k, ¬(m.method = "" ∧ m.id = E)) :
    readResponseCtx k E msgs = CtxReadResult.deadlineExceeded := by
  induction k generalizing msgs with
  | zero => rfl
  | succ k ih =>
    cases msgs with
    | nil => simp at hlen
    | cons m rest =>
      have htail : ∀ m' ∈ rest.take k, ¬(m'.method = "" ∧ m'.id = E) := by
        intro m' hm'
        exact hnomatch m' (by rw [List.take_succ_cons]; exact List.mem_cons_of_mem _ hm')
      have hrec := ih rest (by simp at hlen; omega) htail
      rw [readResponseCtx]
      by_cases hm : m.method = ""
      · have hid : ¬ m.id = E := fun h =>
          hnomatch m (by rw [List.take_succ_cons]; exact List.mem_cons_self _ _) ⟨hm, h⟩
        simp [hm, hid, hrec]
      · simp [hm, hrec]

/-- Witness for C4 (amended): a chatty server sending a notification and a
response with the wrong id; the deadline elapses after both are read. -/
theorem c4_deadline_amended_witness :
    readResponseCtx 2 7 [⟨"textDocument/publishDiagnostics", 0, none, none⟩,
        ⟨"", 3, none, none⟩] = CtxReadResult.deadlineExceeded :=
  c4_deadline_amended 2 7
    [⟨"textDocument/publishDiagnostics", 0, none, none⟩, ⟨"", 3, none, none⟩]
    (by decide) (by decide)

/-- C7, counterexample: a decoded message whose result and error fields
are both absent is returned by the receive loop as the successful
response — it is not treated as an error condition. -/
theorem c7_result_error_counterexample :
    (readResponseLoop 1 [⟨"", 1, none, none⟩]).1 = some ⟨"", 1, none, none⟩
      ∧ (⟨"", 1, none, none⟩ : Msg).result = none
      ∧ (⟨"", 1, none, none⟩ : Msg).err = none := by
  refine ⟨?_, rfl, rfl⟩
  rw [readResponseLoop]
  simp

/-- C7 (amended): the code performs no result/error exclusivity or
presence check: a decoded message with an empty method and the expected id
is returned as the successful response whatever its result and error
fields hold — both absent and both present included. -/
theorem c7_result_error_amended (E : Int) (r : Option Json) (e : Option ErrObj)
    (msgs : List Msg) :
    (readResponseLoop E (⟨"", E, r, e⟩ :: msgs)).1 = some ⟨"", E, r, e⟩ := by
  rw [readResponseLoop]
  simp

/-- Outcome of `Initialize`. -/
inductive InitResult where
  | ok : InitResult
  /-- "failed to send initialize request". -/
  | sendFailed (e : SendErr) : InitResult
  /-- "LSP initialize error [code]: message" (main.go line 232). -/
  | protocolErr (code : Int) (message : String) : InitResult
  /-- "failed to send initialized notification". -/
  | notifFailed (e : SendErr) : InitResult
deriving DecidableEq, Repr

structure InitOut where
  res : InitResult
  st : ClientState
  sent : List SentMsg
  log : List LogEv

/-- `Initialize` (main.go lines 203-240), modelled as `initSession`: send the `initialize` request;
if it fails, surface that; if the response carries an error object,
surface its code and message and stop; otherwise send the `initialized`
notification (marshal/write oracles `nMOk`, `nWOk`) and report success
only when that write succeeded. -/
def initSession (st : ClientState) (mOk wOk : Bool) (incoming : List Msg)
    (nMOk nWOk : Bool) : InitOut :=
  let r := sendRequest st "initialize" mOk wOk incoming
  match r.res with
  | .error e => ⟨.sendFailed e, r.st, r.sent, r.log⟩
  | .ok resp =>
    match resp.err with
    | some e => ⟨.protocolErr e.code e.message, r.st, r.sent, r.log⟩
    | none =>
      let n := sendNotification r.st "initialized" nMOk nWOk
      match n.res with
      | .error e => ⟨.notifFailed e, n.st, r.sent ++ n.sent, r.log ++ n.log⟩
      | .ok _ => ⟨.ok, n.st, r.sent ++ n.sent, r.log ++ n.log⟩

theorem sendRequest_sent_method (st : ClientState) (method : String)
    (mOk wOk : Bool) (incoming : List Msg) :
    ∀ sm ∈ (sendRequest st method mOk wOk incoming).sent, sm.method = method := by
  intro sm hsm
  rw [sendRequest] at hsm
  by_cases hm : mOk = true
  · by_cases hw : wOk = true
    · simp only [hm, hw, if_true] at hsm
      rcases h : readResponseLoop st.id incoming with ⟨r, ls⟩
      rw [h] at hsm
      cases r <;> simp at hsm <;> simp [hsm]
    · simp [hm, hw] at hsm
  · simp [hm] at hsm

/-- C8: when the `initialize` response carries an error object,
`Initialize` fails surfacing exactly the server's error code and message,
and no `initialized` notification is sent (every frame written so far is
the `initialize` request); when the response carries no error,
`Initialize` writes the `initialized` notification — a message with no id
field — and (if that write succeeds) returns success. -/
theorem c8_initialize_behavior (st : ClientState) (mOk wOk nMOk nWOk : Bool)
    (incoming : List Msg) (resp : Msg)
    (hresp : (sendRequest st "initialize" mOk wOk incoming).res = .ok resp) :
    (∀ e, resp.err = some e →
        (initSession st mOk wOk incoming nMOk nWOk).res
            = InitResult.protocolErr e.code e.message
          ∧ ∀ sm ∈ (initSession st mOk wOk incoming nMOk nWOk).sent,
              sm.method = "initialize")
      ∧ (resp.err = none → nMOk = true → nWOk = true →
          (initSession st mOk wOk incoming nMOk nWOk).res = InitResult.ok
          ∧ (initSession st mOk wOk incoming nMOk nWOk).sent
              = (sendRequest st "initialize" mOk wOk incoming).sent
                  ++ [⟨"initialized", none⟩]) := by
  constructor
  · intro e he
    rw [initSession, hresp]
    dsimp only
    rw [he]
    exact ⟨rfl, sendRequest_sent_method st "initialize" mOk wOk incoming⟩
  · intro he hn hw
    rw [initSession, hresp]
    dsimp only
    rw [he, hn, hw]
    rw [show sendNotification
        (sendRequest st "initialize" mOk wOk incoming).st "initialized" true true
        = ⟨.ok (), (sendRequest st "initialize" mOk wOk incoming).st,
            [⟨"initialized", none⟩], [LogEv.sendingNotification "initialized"]⟩
      from rfl]
    exact ⟨rfl, rfl⟩

/-- Witness for C8 on a concrete session: server answers id 1 with a
result and no error; `Initialize` succeeds and the wire carries the
`initialize` request (id 1) followed by the id-less `initialized`
notification. -/
theorem c8_initialize_witness :
    (initSession initClient true true [⟨"", 1, none, none⟩] true true).res
        = InitResult.ok
      ∧ (initSession initClient true true [⟨"", 1, none, none⟩] true true).sent
        = [⟨"initialize", some 1⟩, ⟨"initialized", none⟩] := by
  have h := (c8_initialize_behavior initClient true true true true
      [⟨"", 1, none, none⟩] ⟨"", 1, none, none⟩ rfl).2 rfl rfl rfl
  refine ⟨h.1, ?_⟩
  rw [h.2]
  rfl

/-- The environment `Close` runs in: outcomes of the shutdown request, the
exit notification, the three stream closes, and `cmd.Wait()`. -/
structure CloseEnv where
  shutdownMOk : Bool
  shutdownWOk : Bool
  shutdownIncoming : List Msg
  exitMOk : Bool
  exitWOk : Bool
  stdinOk : Bool
  stdoutOk : Bool
  stderrOk : Bool
  waitErr : Option String

structure CloseOut where
  res : Option String
  st : ClientState
  sent : List SentMsg
  log : List LogEv

/-- `Close` (main.go lines 242-260): sends the `shutdown` request with
both return values discarded, sends the `exit` notification with its
error discarded, closes the three streams logging a Warn for each close
that fails, and returns `cmd.Wait()`'s result. -/
def close (st : ClientState) (env : CloseEnv) : CloseOut :=
  ⟨env.waitErr,
    (sendNotification
      (sendRequest st "shutdown" env.shutdownMOk env.shutdownWOk
        env.shutdownIncoming).st "exit" env.exitMOk env.exitWOk).st,
    (sendRequest st "shutdown" env.shutdownMOk env.shutdownWOk
        env.shutdownIncoming).sent
      ++ (sendNotification
        (sendRequest st "shutdown" env.shutdownMOk env.shutdownWOk
          env.shutdownIncoming).st "exit" env.exitMOk env.exitWOk).sent,
    (sendRequest st "shutdown" env.shutdownMOk env.shutdownWOk
        env.shutdownIncoming).log
      ++ (sendNotification
        (sendRequest st "shutdown" env.shutdownMOk env.shutdownWOk
          env.shutdownIncoming).st "exit" env.exitMOk env.exitWOk).log
      ++ ((if env.stdinOk then [] else [LogEv.warnCloseStdin])
        ++ (if env.stdoutOk then [] else [LogEv.warnCloseStdout])
        ++ (if env.stderrOk then [] else [LogEv.warnCloseStderr]))⟩

/-- C9, counterexample: with the shutdown write and the exit write both
failing (and the closes and wait succeeding), `Close` returns nil and its
log holds only the two pre-write Debug "Sending ..." entries — the
failures of the shutdown and exit steps are silently discarded, not
logged. -/
theorem c9_close_counterexample :
    (close initClient ⟨true, false, [], true, false, true, true, true, none⟩).res
        = none
      ∧ (close initClient ⟨true, false, [], true, false, true, true, true, none⟩).log
        = [LogEv.sendingRequest "shutdown" 1, LogEv.sendingNotification "exit"] := by
  constructor <;> rfl

/-- No receive-loop log entry is a stream-close warning. -/
theorem readResponseLoop_no_close_warn (E : Int) (msgs : List Msg) :
    ∀ l ∈ (readResponseLoop E msgs).2,
      l ≠ LogEv.warnCloseStdin ∧ l ≠ LogEv.warnCloseStdout
        ∧ l ≠ LogEv.warnCloseStderr := by
  induction msgs with
  | nil => intro l hl; simp [readResponseLoop] at hl
  | cons m rest ih =>
    intro l hl
    rw [readResponseLoop] at hl
    rcases hrec : readResponseLoop E rest with ⟨r, ls⟩
    rw [hrec] at hl
    have ihl : ∀ l2 ∈ ls, l2 ≠ LogEv.warnCloseStdin
        ∧ l2 ≠ LogEv.warnCloseStdout ∧ l2 ≠ LogEv.warnCloseStderr :=
      fun l2 h2 => ih l2 (by rw [hrec]; exact h2)
    by_cases hm : m.method = ""
    · by_cases hid : m.id = E
      · simp [hm, hid] at hl
        simp [hl]
      · simp [hm, hid] at hl
        rcases hl with hl | hl | hl
        · simp [hl]
        · simp [hl]
        · exact ihl l hl
    · simp [hm] at hl
      rcases hl with hl | hl | hl
      · simp [hl]
      · simp [hl]
      · exact ihl l hl

theorem sendRequest_log_no_close_warn (st : ClientState) (method : String)
    (mOk wOk : Bool) (incoming : List Msg) :
    ∀ l ∈ (sendRequest st method mOk wOk incoming).log,
      l ≠ LogEv.warnCloseStdin ∧ l ≠ LogEv.warnCloseStdout
        ∧ l ≠ LogEv.warnCloseStderr := by
  intro l hl
  rw [sendRequest] at hl
  by_cases hm : mOk = true
  · by_cases hw : wOk = true
    · simp only [hm, hw, if_true] at hl
      rcases h : readResponseLoop st.id incoming with ⟨r, ls⟩
      rw [h] at hl
      have hls : ∀ l2 ∈ ls, l2 ≠ LogEv.warnCloseStdin
          ∧ l2 ≠ LogEv.warnCloseStdout ∧ l2 ≠ LogEv.warnCloseStderr := by
        intro l2 hl2
        exact readResponseLoop_no_close_warn st.id incoming l2 (by rw [h]; exact hl2)
      cases r with
      | some m =>
        simp at hl
        rcases hl with hl | hl
        · simp [hl]
        · exact hls l hl
      | none =>
        simp at hl
        rcases hl with hl | hl
        · simp [hl]
        · exact hls l hl
    · simp [hm, hw] at hl
      simp [hl]
  · simp [hm] at hl
    simp [hl]

theorem sendNotification_log (st : ClientState) (method : String)
    (mOk wOk : Bool) :
    (sendNotification st method mOk wOk).log
      = [LogEv.sendingNotification method] := by
  rw [sendNotification]
  by_cases hm : mOk = true
  · by_cases hw : wOk = true <;> simp [hm, hw]
  · simp [hm]

set_option maxRecDepth 4096 in
/-- C9 (amended): whatever the outcomes of the shutdown request, the exit
notification, the stream closes and the wait, `Close` returns exactly
`cmd.Wait()`'s result — failures of the shutdown and exit steps are
neither propagated nor logged (silently discarded, with only the pre-write
Debug entries emitted), the exit notification is still attempted after a
failed shutdown, and the log carries a close warning exactly for each
stream whose close failed. -/
theorem c9_close_amended (st : ClientState) (env : CloseEnv) :
    (close st env).res = env.waitErr
      ∧ LogEv.sendingNotification "exit" ∈ (close st env).log
      ∧ ((LogEv.warnCloseStdin ∈ (close st env).log) ↔ env.stdinOk = false)
      ∧ ((LogEv.warnCloseStdout ∈ (close st env).log) ↔ env.stdoutOk = false)
      ∧ ((LogEv.warnCloseStderr ∈ (close st env).log) ↔ env.stderrOk = false) := by
  have hreq := sendRequest_log_no_close_warn st "shutdown" env.shutdownMOk
    env.shutdownWOk env.shutdownIncoming
  have hA1 : LogEv.warnCloseStdin
      ∉ (sendRequest st "shutdown" env.shutdownMOk env.shutdownWOk
          env.shutdownIncoming).log := fun h => (hreq _ h).1 rfl
  have hA2 : LogEv.warnCloseStdout
      ∉ (sendRequest st "shutdown" env.shutdownMOk env.shutdownWOk
          env.shutdownIncoming).log := fun h => (hreq _ h).2.1 rfl
  have hA3 : LogEv.warnCloseStderr
      ∉ (sendRequest st "shutdown" env.shutdownMOk env.shutdownWOk
          env.shutdownIncoming).log := fun h => (hreq _ h).2.2 rfl
  have hB := sendNotification_log
    (sendRequest st "shutdown" env.shutdownMOk env.shutdownWOk
      env.shutdownIncoming).st "exit" env.exitMOk env.exitWOk
  refine ⟨rfl, ?_, ?_, ?_, ?_⟩
  · simp [close, hB]
  · by_cases h1 : env.stdinOk <;>
      by_cases h2 : env.stdoutOk <;>
        by_cases h3 : env.stderrOk <;>
          simp [close, hA1, hB, h1, h2, h3]
  · by_cases h1 : env.stdinOk <;>
      by_cases h2 : env.stdoutOk <;>
        by_cases h3 : env.stderrOk <;>
          simp [close, hA2, hB, h1, h2, h3]
  · by_cases h1 : env.stdinOk <;>
      by_cases h2 : env.stdoutOk <;>
        by_cases h3 : env.stderrOk <;>
          simp [close, hA3, hB, h1, h2, h3]

end Clsp
